import Mathlib

/-!
Verification development for the AMDA fuzzy decision engine
(src/Artificial Intelligence/AMDA/amda.py).

Modelling conventions:
* Python floats are modelled as exact rationals (ℚ); decimal literals of the
  source denote the corresponding rationals.
* Python dicts are modelled as functions into Option.
* Python exceptions are modelled with Except; the try/except around rule
  evaluation becomes a match on the Except value.
-/

namespace AMDA

/-- Action space: the 8 micro-actions of the Action enum, in declaration
order. -/
inductive Action where
  | study
  | doEasyTask
  | gym
  | shortBreak
  | deepRest
  | relaxActivity
  | avoidDistractions
  | planNextSteps
deriving DecidableEq

/-- The 8 actions in enum-declaration order; this is the iteration order of
the Action enum and hence the insertion order of the scores dict built by
_compute_utilities. -/
def actionList : List Action :=
  [.study, .doEasyTask, .gym, .shortBreak, .deepRest, .relaxActivity,
   .avoidDistractions, .planNextSteps]

/-- Belief record: dataclass Belief of the source. -/
structure Belief where
  name : String
  value : String
  numeric_strength : ℚ
deriving DecidableEq

/-- The belief store self.beliefs (a Python dict), modelled as a function. -/
abbrev Beliefs := String → Option Belief

/-- The numeric belief dict handed to rule preconditions
(belief_dict in _compute_utilities). -/
abbrev BeliefDict := String → Option ℚ

/-- Base utilities for each action, from AMDA.__init__. -/
def base_utilities : Action → ℚ
  | .study => 0.3
  | .doEasyTask => 0.4
  | .gym => 0.35
  | .shortBreak => 0.5
  | .deepRest => 0.2
  | .relaxActivity => 0.25
  | .avoidDistractions => 0.15
  | .planNextSteps => 0.5

/-- Triangular membership function skfuzzy.trimf for corners a ≤ b ≤ c:
1 at b, rising linearly on (a,b), falling linearly on (b,c), 0 elsewhere
(degenerate segments with a = b or b = c contribute nothing). -/
def trimf (a b c x : ℚ) : ℚ :=
  if x = b then 1
  else if a < x ∧ x < b then (x - a) / (b - a)
  else if b < x ∧ x < c then (c - x) / (c - b)
  else 0

/-- Linear interpolation of a membership array sampled on the integer
universe np.arange(0, 11, 1), i.e. np.interp with left = right = 0 as done
by skfuzzy.interp_membership (zero outside the universe). -/
def interpMembership (mf : ℕ → ℚ) (x : ℚ) : ℚ :=
  if x < 0 ∨ 10 < x then 0
  else if x = 10 then mf 10
  else
    mf (⌊x⌋).toNat +
      (mf ((⌊x⌋).toNat + 1) - mf (⌊x⌋).toNat) * (x - ((⌊x⌋).toNat : ℚ))

/-- Membership functions of the level antecedent (_setup_fuzzy_control). -/
def levelSets : String → Option (ℚ → ℚ) := fun label =>
  if label = "low" then some (trimf 0 0 5)
  else if label = "medium" then some (trimf 0 5 10)
  else if label = "high" then some (trimf 5 10 10)
  else none

/-- Membership functions of the time_norm antecedent. -/
def timeSets : String → Option (ℚ → ℚ) := fun label =>
  if label = "short" then some (trimf 0 0 3)
  else if label = "medium" then some (trimf 2 5 8)
  else if label = "long" then some (trimf 7 10 10)
  else none

/-- Membership functions of the deadline antecedent. -/
def deadlineSets : String → Option (ℚ → ℚ) := fun label =>
  if label = "none" then some (trimf 0 0 4)
  else if label = "near" then some (trimf 2 5 8)
  else if label = "urgent" then some (trimf 6 10 10)
  else none

/-- Membership functions of the mood antecedent. -/
def moodSets : String → Option (ℚ → ℚ) := fun label =>
  if label = "bad" then some (trimf 0 0 5)
  else if label = "okay" then some (trimf 0 5 10)
  else if label = "good" then some (trimf 5 10 10)
  else none

/-- Membership degree of a universe point in a named fuzzy set of an
antecedent group: the sampled membership array interpolated at x. -/
def memAt (sets : String → Option (ℚ → ℚ)) (label : String) (x : ℚ) :
    Option ℚ :=
  (sets label).map fun mf => interpMembership (fun i => mf (i : ℚ)) x

/-- AMDA._get_fuzz_mem: degree of membership of a belief value in a named
fuzzy set.  A belief name missing from the dict defaults to 0.0; an unknown
belief name returns 0.0; an unknown fuzzy-set label raises KeyError,
modelled as Except.error. -/
def getFuzzMem (b_name f_set_name : String) (belief_dict : BeliefDict) :
    Except String ℚ :=
  let val := ((belief_dict b_name).getD 0) * 10
  let sets : Option (String → Option (ℚ → ℚ)) :=
    if b_name = "physical_fatigue" ∨ b_name = "energy_level" ∨
       b_name = "stress_level" ∨ b_name = "mental_focus" ∨ b_name = "mood" then
      some (if b_name ≠ "mood" then levelSets else moodSets)
    else if b_name = "time_available_norm" then some timeSets
    else if b_name = "deadline_status" then some deadlineSets
    else none
  match sets with
  | none => .ok 0
  | some antecedent =>
    match antecedent f_set_name with
    | none => .error f_set_name
    | some mf => .ok (interpMembership (fun i => mf (i : ℚ)) val)

/-- Production rule (dataclass Rule).  The precondition callable may raise,
hence Except; the effects dict with its .get(action, 0.0) lookup is
modelled as a total function defaulting to 0. -/
structure Rule where
  name : String
  preconditions : BeliefDict → Except String ℚ
  effects : Action → ℚ
  weight : ℚ
  description : String

/-- Rule 1: deadline urgency; fuzzy OR via np.fmax. -/
def deadline_urgency : Rule where
  name := "deadline_urgency"
  preconditions := fun b => do
    let x ← getFuzzMem "deadline_status" "near" b
    let y ← getFuzzMem "deadline_status" "urgent" b
    pure (max x y)
  effects := fun a => match a with
    | .study => 0.8
    | .planNextSteps => 0.3
    | _ => 0
  weight := 2.0
  description := "Urgent deadlines favor focused study (Fuzzy)"

/-- Rule 2: high fatigue. -/
def high_fatigue : Rule where
  name := "high_fatigue"
  preconditions := fun b => getFuzzMem "physical_fatigue" "high" b
  effects := fun a => match a with
    | .deepRest => 0.9
    | .study => -0.4
    | _ => 0
  weight := 2.0
  description := "High fatigue prioritizes recovery (Fuzzy)"

/-- Rule 3: low energy and short time; fuzzy AND via np.fmin. -/
def low_energy_short_time : Rule where
  name := "low_energy_short_time"
  preconditions := fun b => do
    let x ← getFuzzMem "energy_level" "low" b
    let y ← getFuzzMem "time_available_norm" "short" b
    pure (min x y)
  effects := fun a => match a with
    | .doEasyTask => 0.7
    | .study => -0.5
    | _ => 0
  weight := 1.5
  description := "Short windows with low energy suit easy tasks (Fuzzy)"

/-- Rule 4: high focus with available time. -/
def high_focus_time : Rule where
  name := "high_focus_time"
  preconditions := fun b => do
    let x ← getFuzzMem "mental_focus" "high" b
    let y ← getFuzzMem "time_available_norm" "medium" b
    let z ← getFuzzMem "time_available_norm" "long" b
    pure (min x (max y z))
  effects := fun a => match a with
    | .study => 0.6
    | _ => 0
  weight := 1.5
  description := "High focus windows leverage study productivity (Fuzzy)"

/-- Rule 5: high stress mitigation. -/
def stress_mitigation : Rule where
  name := "stress_mitigation"
  preconditions := fun b => getFuzzMem "stress_level" "high" b
  effects := fun a => match a with
    | .shortBreak => 0.5
    | .avoidDistractions => 0.3
    | .relaxActivity => 0.4
    | _ => 0
  weight := 1.5
  description := "High stress suggests breaks and relaxation (Fuzzy)"

/-- Rule 6: physical exercise readiness. -/
def exercise_readiness : Rule where
  name := "exercise_readiness"
  preconditions := fun b => do
    let x ← getFuzzMem "energy_level" "high" b
    let y ← getFuzzMem "physical_fatigue" "low" b
    let z ← getFuzzMem "time_available_norm" "long" b
    pure (min x (min y z))
  effects := fun a => match a with
    | .gym => 0.8
    | _ => 0
  weight := 1.3
  description := "Good energy and time enable exercise (Fuzzy)"

/-- Rule 7: good mood favors relaxation. -/
def good_mood_relax : Rule where
  name := "good_mood_relax"
  preconditions := fun b => getFuzzMem "mood" "good" b
  effects := fun a => match a with
    | .relaxActivity => 0.4
    | .avoidDistractions => -0.2
    | _ => 0
  weight := 1.0
  description := "Good mood supports enjoyable activities (Fuzzy)"

/-- Rule 8: bad mood calls for rest or gentle activity. -/
def bad_mood_care : Rule where
  name := "bad_mood_care"
  preconditions := fun b => getFuzzMem "mood" "bad" b
  effects := fun a => match a with
    | .deepRest => 0.3
    | .relaxActivity => 0.3
    | .study => -0.3
    | _ => 0
  weight := 1.5
  description := "Low mood calls for self-care (Fuzzy)"

/-- Rule 9: planning when uncertain. -/
def planning_clarity : Rule where
  name := "planning_clarity"
  preconditions := fun b => do
    let x ← getFuzzMem "deadline_status" "none" b
    let y ← getFuzzMem "mental_focus" "low" b
    pure (min x y)
  effects := fun a => match a with
    | .planNextSteps => 0.5
    | _ => 0
  weight := 1.0
  description := "Low clarity benefits from planning (Fuzzy)"

/-- The fixed rule list built by _initialize_rules, in order. -/
def amdaRules : List Rule :=
  [deadline_urgency, high_fatigue, low_energy_short_time, high_focus_time,
   stress_mitigation, exercise_readiness, good_mood_relax, bad_mood_care,
   planning_clarity]

/-- Result of utility computation for an action (dataclass UtilityScore);
the contributions dict in insertion order becomes an association list. -/
structure UtilityScore where
  action : Action
  base_utility : ℚ
  contributions : List (String × ℚ)
  total_utility : ℚ
deriving DecidableEq

/-- One iteration of the inner rule loop of AMDA._compute_utilities,
accumulating (total, contributions).  A rule whose evaluation raises is
caught and skipped (the try/except of the source). -/
def ruleStep (action : Action) (belief_dict : BeliefDict)
    (acc : ℚ × List (String × ℚ)) (rule : Rule) : ℚ × List (String × ℚ) :=
  match rule.preconditions belief_dict with
  | .error _ => acc
  | .ok activation_strength =>
    if activation_strength > 0.001 then
      let delta := rule.effects action * activation_strength
      if delta ≠ 0 then (acc.1 + delta, acc.2 ++ [(rule.name, delta)])
      else acc
    else acc

/-- AMDA._compute_utilities: per-action fold of all rules over the belief
dict, starting from the base utility. -/
def compute_utilities (rules : List Rule) (belief_dict : BeliefDict) :
    Action → UtilityScore := fun action =>
  let res := rules.foldl (ruleStep action belief_dict) (base_utilities action, [])
  { action := action
    base_utility := base_utilities action
    contributions := res.2
    total_utility := res.1 }

/-- The numeric dict built at the top of _compute_utilities from the belief
store. -/
def beliefDict (b : Beliefs) : BeliefDict := fun name =>
  (b name).map Belief.numeric_strength

/-- Python str.lower restricted to ASCII, as used on the input labels. -/
def strLower (s : String) : String := String.mk (s.data.map Char.toLower)

/-- AMDA._map_level. -/
def map_level (label : String) : ℚ :=
  if strLower label = "low" then 0
  else if strLower label = "medium" then 0.5
  else if strLower label = "high" then 1
  else 0.5

/-- AMDA._map_mood. -/
def map_mood (label : String) : ℚ :=
  if strLower label = "bad" then 0
  else if strLower label = "okay" then 0.5
  else if strLower label = "good" then 1
  else 0.5

/-- AMDA._map_deadline. -/
def map_deadline (label : String) : ℚ :=
  if strLower label = "none" then 0
  else if strLower label = "near" then 0.5
  else if strLower label = "urgent" then 1
  else 0

/-- The belief_mapping dict of AMDA.perceive. -/
def belief_mapping (key : String) : Option (String → ℚ) :=
  if key = "energy_level" then some map_level
  else if key = "stress_level" then some map_level
  else if key = "mental_focus" then some map_level
  else if key = "mood" then some map_mood
  else if key = "physical_fatigue" then some map_level
  else if key = "deadline_status" then some map_deadline
  else none

/-- Whitespace test for the float parse model. -/
def isSpaceChar (c : Char) : Bool :=
  c == ' ' || c == '\t' || c == '\n' || c == '\r'

/-- Digit-string value; none when empty or a non-digit occurs. -/
def parseNatDigits (cs : List Char) : Option ℕ :=
  if cs ≠ [] ∧ cs.all Char.isDigit then
    some (cs.foldl (fun n c => 10 * n + (c.toNat - 48)) 0)
  else none

/-- Splits a char list at the first char satisfying p; the second component
is none when no such char occurs. -/
def breakAt (p : Char → Bool) : List Char → List Char × Option (List Char)
  | [] => ([], none)
  | c :: cs =>
    if p c then ([], some cs)
    else
      let r := breakAt p cs
      (c :: r.1, r.2)

/-- Unsigned part of the float parse model: digits with optional fractional
part and optional decimal exponent. -/
def parseUnsigned (cs : List Char) : Option ℚ :=
  let mantExp := breakAt (fun c => c == 'e' || c == 'E') cs
  let mantVal : Option ℚ :=
    let ipFp := breakAt (fun c => c == '.') mantExp.1
    match ipFp.2 with
    | none => (parseNatDigits ipFp.1).map fun n => (n : ℚ)
    | some fp =>
      if ipFp.1 = [] ∧ fp = [] then none
      else
        let ipv : Option ℕ := if ipFp.1 = [] then some 0 else parseNatDigits ipFp.1
        let fpv : Option (ℕ × ℕ) :=
          if fp = [] then some (0, 0)
          else (parseNatDigits fp).map fun n => (n, fp.length)
        match ipv, fpv with
        | some i, some fl => some ((i : ℚ) + (fl.1 : ℚ) / (10 : ℚ) ^ fl.2)
        | _, _ => none
  match mantExp.2 with
  | none => mantVal
  | some ec =>
    let signedDigits : Bool × List Char :=
      match ec with
      | '+' :: r => (true, r)
      | '-' :: r => (false, r)
      | r => (true, r)
    match mantVal, parseNatDigits signedDigits.2 with
    | some m, some e =>
      some (if signedDigits.1 then m * (10 : ℚ) ^ e else m / (10 : ℚ) ^ e)
    | _, _ => none

/-- Model of the Python built-in float(str) for finite decimal notations:
optional surrounding whitespace, optional sign, digits with optional
fraction and exponent.  Inputs Python would map to non-finite floats
(inf/nan) or that use digit underscores are outside this rational model. -/
def parseFloat (s : String) : Option ℚ :=
  let cs := (s.data.dropWhile isSpaceChar).reverse.dropWhile isSpaceChar |>.reverse
  match cs with
  | '+' :: rest => parseUnsigned rest
  | '-' :: rest => (parseUnsigned rest).map Neg.neg
  | rest => parseUnsigned rest

/-- Error raised out of perception: the ValueError of float() on a
non-numeric time_available propagates to the caller of perceive. -/
inductive PerceiveError where
  | parseFailure (raw : String)
deriving DecidableEq

/-- The belief store produced by AMDA.perceive once the time value is
known: recognized keys are mapped to beliefs, unrecognized keys are
ignored, and the derived time_available_norm belief is added with strength
min(time_val / 120, 1). -/
def perceiveWith (user_input : String → Option String) (time_val : ℚ) :
    Beliefs := fun name =>
  if name = "time_available_norm" then
    some { name := "time_available_norm"
           value := toString time_val
           numeric_strength := min (time_val / 120) 1 }
  else
    match user_input name with
    | some v =>
      match belief_mapping name with
      | some f => some { name := name, value := v, numeric_strength := f v }
      | none => none
    | none => none

/-- AMDA.perceive: float(user_input.get(time_available, 30)) followed by
the belief-construction loop; a failing float parse raises out of
perceive. -/
def perceive (user_input : String → Option String) :
    Except PerceiveError Beliefs :=
  match user_input "time_available" with
  | none => .ok (perceiveWith user_input 30)
  | some s =>
    match parseFloat s with
    | some q => .ok (perceiveWith user_input q)
    | none => .error (.parseFailure s)

/-- Near-tie epsilon of _resolve_decision. -/
def epsilon : ℚ := 0.1

/-- Python sorted(key=lambda s: s.total_utility, reverse=True): a stable
descending sort.  Stable sorting has a unique result, so Mathlib insertion
sort with the reflexive descending relation models it exactly. -/
def sortDesc (l : List UtilityScore) : List UtilityScore :=
  List.insertionSort (fun s t => t.total_utility ≤ s.total_utility) l

/-- Default value handed to headD; every sorted list indexed by the
resolver is nonempty, so it is never consulted. -/
def dummyScore : UtilityScore :=
  { action := .study, base_utility := 0, contributions := [], total_utility := 0 }

/-- scores.values() of the dict built by _compute_utilities, in its
insertion order (the Action enum order). -/
def scoresList (scores : Action → UtilityScore) : List UtilityScore :=
  actionList.map scores

/-- sorted_scores of _resolve_decision. -/
def sorted_scores (scores : Action → UtilityScore) : List UtilityScore :=
  sortDesc (scoresList scores)

/-- sorted_scores[0]. -/
def bestScore (scores : Action → UtilityScore) : UtilityScore :=
  (sorted_scores scores).headD dummyScore

/-- Contenders: scores within epsilon of the best total. -/
def contendersOf (scores : Action → UtilityScore) : List UtilityScore :=
  (sorted_scores scores).filter fun s =>
    decide (|s.total_utility - (bestScore scores).total_utility| ≤ epsilon)

/-- Tie-break tier 1 action set. -/
def health_priority : List Action := [.deepRest, .shortBreak, .relaxActivity]

/-- Tie-break tier 2 action set. -/
def deadline_priority : List Action := [.study, .planNextSteps]

/-- Contenders in the health tier. -/
def health_contenders (scores : Action → UtilityScore) : List UtilityScore :=
  (contendersOf scores).filter fun s => decide (s.action ∈ health_priority)

/-- Contenders in the deadline tier. -/
def deadline_contenders (scores : Action → UtilityScore) : List UtilityScore :=
  (contendersOf scores).filter fun s => decide (s.action ∈ deadline_priority)

/-- AMDA._resolve_decision: argmax with the near-tie tie-break cascade. -/
def resolve_decision (scores : Action → UtilityScore)
    (last_action : Option Action) : Action × UtilityScore :=
  if 1 < (contendersOf scores).length then
    if health_contenders scores ≠ [] then
      let b := (sortDesc (health_contenders scores)).headD dummyScore
      (b.action, b)
    else if deadline_contenders scores ≠ [] then
      let b := (sortDesc (deadline_contenders scores)).headD dummyScore
      (b.action, b)
    else
      match last_action with
      | some la =>
        let non_repeated :=
          (contendersOf scores).filter fun s => decide (s.action ≠ la)
        if non_repeated ≠ [] then
          let b := (sortDesc non_repeated).headD dummyScore
          (b.action, b)
        else ((bestScore scores).action, bestScore scores)
      | none => ((bestScore scores).action, bestScore scores)
  else ((bestScore scores).action, bestScore scores)

/-- The activation strength a rule reports for a belief dict; an erroring
rule is read as strength 0 (it contributes nothing either way). -/
def activation_strength (r : Rule) (d : BeliefDict) : ℚ :=
  match r.preconditions d with
  | .ok q => q
  | .error _ => 0

/-- The amount a single rule adds to one action's total in the
_compute_utilities loop. -/
def ruleContribution (r : Rule) (a : Action) (d : BeliefDict) : ℚ :=
  match r.preconditions d with
  | .error _ => 0
  | .ok q =>
    if q > 0.001 then
      (if r.effects a * q ≠ 0 then r.effects a * q else 0)
    else 0

/-- A rule whose precondition callable always raises, for exercising the
failure-isolation path. -/
def failingRule : Rule where
  name := "bad"
  preconditions := fun _ => .error "boom"
  effects := fun _ => 0
  weight := 1.0
  description := ""

/-- A utility-score set in which all eight actions tie exactly. -/
def eqScores : Action → UtilityScore := fun a =>
  { action := a, base_utility := 0, contributions := [], total_utility := 0 }

/-- A utility-score set in which DEEP_REST and STUDY tie at the maximum
and every other action is strictly below. -/
def tieScores : Action → UtilityScore := fun a =>
  { action := a, base_utility := 0, contributions := []
    total_utility := if a = Action.deepRest ∨ a = Action.study then 1 else 0 }

/-- Input whose time_available is a negative numeric string. -/
def negTimeInput : String → Option String := fun n =>
  if n = "time_available" then some "-240" else none

/-- Input carrying only deadline_status = none. -/
def deadlineNoneInput : String → Option String := fun n =>
  if n = "deadline_status" then some "none" else none

/-- Input carrying only deadline_status = urgent. -/
def deadlineUrgentInput : String → Option String := fun n =>
  if n = "deadline_status" then some "urgent" else none

/-- Input carrying only a non-numeric time_available. -/
def badTimeInput : String → Option String := fun n =>
  if n = "time_available" then some "abc" else none

/-- Belief dict holding strength 0 for the two beliefs the planning rule
queries. -/
def zeroPlanningDict : BeliefDict := fun n =>
  if n = "deadline_status" ∨ n = "mental_focus" then some (0 : ℚ) else none

instance {ε α : Type} [DecidableEq ε] [DecidableEq α] :
    DecidableEq (Except ε α) := fun a b =>
  match a, b with
  | .error e, .error f =>
    if h : e = f then .isTrue (congrArg Except.error h)
    else .isFalse fun hc => h (Except.error.inj hc)
  | .ok x, .ok y =>
    if h : x = y then .isTrue (congrArg Except.ok h)
    else .isFalse fun hc => h (Except.ok.inj hc)
  | .error _, .ok _ => .isFalse fun hc => Except.noConfusion hc
  | .ok _, .error _ => .isFalse fun hc => Except.noConfusion hc

instance : IsTotal UtilityScore fun s t => t.total_utility ≤ s.total_utility :=
  ⟨fun a b => le_total b.total_utility a.total_utility⟩

instance : IsTrans UtilityScore fun s t => t.total_utility ≤ s.total_utility :=
  ⟨fun _ _ _ h₁ h₂ => le_trans h₂ h₁⟩

/-! ## General lemmas about the utility fold -/

theorem foldl_ruleStep_fst (rules : List Rule) (a : Action) (d : BeliefDict)
    (init : ℚ × List (String × ℚ)) :
    (rules.foldl (ruleStep a d) init).1 =
      init.1 + (rules.map fun r => ruleContribution r a d).sum := by
  induction rules generalizing init with
  | nil => simp
  | cons r rs ih =>
    rw [List.foldl_cons, List.map_cons, List.sum_cons, ih]
    have hstep : (ruleStep a d init r).1 = init.1 + ruleContribution r a d := by
      unfold ruleStep ruleContribution
      match hp : r.preconditions d with
      | .error e => simp
      | .ok q =>
        by_cases h1 : q > 0.001
        · by_cases h2 : r.effects a * q ≠ 0 <;> simp [h1, h2]
        · simp [h1]
    rw [hstep]; ring

theorem total_utility_eq_base_add_sum (rules : List Rule) (d : BeliefDict)
    (a : Action) :
    (compute_utilities rules d a).total_utility =
      base_utilities a + (rules.map fun r => ruleContribution r a d).sum := by
  unfold compute_utilities
  exact foldl_ruleStep_fst rules a d (base_utilities a, [])

theorem ruleContribution_eq_if (r : Rule) (a : Action) (d : BeliefDict) :
    ruleContribution r a d =
      if 0.001 < activation_strength r d ∧ r.effects a ≠ 0 then
        activation_strength r d * r.effects a
      else 0 := by
  unfold ruleContribution activation_strength
  match hp : r.preconditions d with
  | .error e =>
    have hno : ¬(0.001 < (0 : ℚ) ∧ r.effects a ≠ 0) := by
      rintro ⟨h, -⟩; norm_num at h
    simp [hno]
  | .ok q =>
    by_cases h1 : q > 0.001
    · have hq : q ≠ 0 := by positivity
      by_cases h2 : r.effects a = 0
      · simp [h1, h2]
      · have : r.effects a * q ≠ 0 := mul_ne_zero h2 hq
        simp [h1, h2, this, mul_comm]
    · simp [h1]

theorem ruleContribution_eff_zero (r : Rule) (a : Action) (d : BeliefDict)
    (h : r.effects a = 0) : ruleContribution r a d = 0 := by
  rw [ruleContribution_eq_if]
  simp [h]

/-! ## Range lemmas for membership functions -/

theorem trimf_mem_Icc (a b c x : ℚ) (hab : a ≤ b) (hbc : b ≤ c) :
    0 ≤ trimf a b c x ∧ trimf a b c x ≤ 1 := by
  unfold trimf
  split_ifs with h1 h2 h3
  · norm_num
  · have hden : 0 < b - a := by linarith [h2.1, h2.2]
    constructor
    · apply div_nonneg <;> linarith [h2.1, h2.2]
    · rw [div_le_one hden]; linarith [h2.2]
  · have hden : 0 < c - b := by linarith [h3.1, h3.2]
    constructor
    · apply div_nonneg <;> linarith [h3.1, h3.2]
    · rw [div_le_one hden]; linarith [h3.1]
  · norm_num

theorem interpMembership_mem_Icc (mf : ℕ → ℚ) (x : ℚ)
    (h : ∀ i, 0 ≤ mf i ∧ mf i ≤ 1) :
    0 ≤ interpMembership mf x ∧ interpMembership mf x ≤ 1 := by
  unfold interpMembership
  split_ifs with h1 h2
  · norm_num
  · exact h 10
  · push_neg at h1
    have hx0 : (0 : ℚ) ≤ x := h1.1
    have hfl0 : (0 : ℤ) ≤ ⌊x⌋ := Int.floor_nonneg.mpr hx0
    have hcast : (((⌊x⌋).toNat : ℕ) : ℚ) = ((⌊x⌋ : ℤ) : ℚ) := by
      exact_mod_cast congrArg (fun z : ℤ => (z : ℚ)) (Int.toNat_of_nonneg hfl0)
    have ht0 : 0 ≤ x - (((⌊x⌋).toNat : ℕ) : ℚ) := by
      rw [hcast]; linarith [Int.floor_le x]
    have ht1 : x - (((⌊x⌋).toNat : ℕ) : ℚ) < 1 := by
      rw [hcast]; linarith [Int.lt_floor_add_one x]
    obtain ⟨hm0, hm0'⟩ := h (⌊x⌋).toNat
    obtain ⟨hm1, hm1'⟩ := h ((⌊x⌋).toNat + 1)
    constructor
    · nlinarith
    · nlinarith

theorem levelSets_bounds {f : String} {mf : ℚ → ℚ}
    (h : levelSets f = some mf) (x : ℚ) : 0 ≤ mf x ∧ mf x ≤ 1 := by
  unfold levelSets at h
  split_ifs at h <;>
    first
      | (injection h with h; subst h;
         exact trimf_mem_Icc _ _ _ _ (by norm_num) (by norm_num))
      | cases h

theorem timeSets_bounds {f : String} {mf : ℚ → ℚ}
    (h : timeSets f = some mf) (x : ℚ) : 0 ≤ mf x ∧ mf x ≤ 1 := by
  unfold timeSets at h
  split_ifs at h <;>
    first
      | (injection h with h; subst h;
         exact trimf_mem_Icc _ _ _ _ (by norm_num) (by norm_num))
      | cases h

theorem deadlineSets_bounds {f : String} {mf : ℚ → ℚ}
    (h : deadlineSets f = some mf) (x : ℚ) : 0 ≤ mf x ∧ mf x ≤ 1 := by
  unfold deadlineSets at h
  split_ifs at h <;>
    first
      | (injection h with h; subst h;
         exact trimf_mem_Icc _ _ _ _ (by norm_num) (by norm_num))
      | cases h

theorem moodSets_bounds {f : String} {mf : ℚ → ℚ}
    (h : moodSets f = some mf) (x : ℚ) : 0 ≤ mf x ∧ mf x ≤ 1 := by
  unfold moodSets at h
  split_ifs at h <;>
    first
      | (injection h with h; subst h;
         exact trimf_mem_Icc _ _ _ _ (by norm_num) (by norm_num))
      | cases h

theorem getFuzzMem_ok_bounds (bn fs : String) (d : BeliefDict) (q : ℚ)
    (h : getFuzzMem bn fs d = .ok q) : 0 ≤ q ∧ q ≤ 1 := by
  unfold getFuzzMem at h
  by_cases h1 : bn = "physical_fatigue" ∨ bn = "energy_level" ∨
      bn = "stress_level" ∨ bn = "mental_focus" ∨ bn = "mood"
  · simp only [if_pos h1] at h
    by_cases hm : bn ≠ "mood"
    · simp only [if_pos hm] at h
      rcases hset : levelSets fs with _ | mf
      · simp only [hset] at h; cases h
      · simp only [hset] at h
        injection h with h
        rw [← h]
        exact interpMembership_mem_Icc _ _ fun i => levelSets_bounds hset _
    · simp only [if_neg hm] at h
      rcases hset : moodSets fs with _ | mf
      · simp only [hset] at h; cases h
      · simp only [hset] at h
        injection h with h
        rw [← h]
        exact interpMembership_mem_Icc _ _ fun i => moodSets_bounds hset _
  · simp only [if_neg h1] at h
    by_cases h2 : bn = "time_available_norm"
    · simp only [if_pos h2] at h
      rcases hset : timeSets fs with _ | mf
      · simp only [hset] at h; cases h
      · simp only [hset] at h
        injection h with h
        rw [← h]
        exact interpMembership_mem_Icc _ _ fun i => timeSets_bounds hset _
    · simp only [if_neg h2] at h
      by_cases h3 : bn = "deadline_status"
      · simp only [if_pos h3] at h
        rcases hset : deadlineSets fs with _ | mf
        · simp only [hset] at h; cases h
        · simp only [hset] at h
          injection h with h
          rw [← h]
          exact interpMembership_mem_Icc _ _ fun i => deadlineSets_bounds hset _
      · simp only [if_neg h3] at h
        injection h with h
        rw [← h]
        norm_num

theorem map_level_mem_Icc (s : String) : 0 ≤ map_level s ∧ map_level s ≤ 1 := by
  unfold map_level
  split_ifs <;> norm_num

theorem map_mood_mem_Icc (s : String) : 0 ≤ map_mood s ∧ map_mood s ≤ 1 := by
  unfold map_mood
  split_ifs <;> norm_num

theorem map_deadline_mem_Icc (s : String) :
    0 ≤ map_deadline s ∧ map_deadline s ≤ 1 := by
  unfold map_deadline
  split_ifs <;> norm_num

theorem perceiveWith_strength_bounds (input : String → Option String)
    (tv : ℚ) (htv : 0 ≤ tv) (name : String) (bel : Belief)
    (h : perceiveWith input tv name = some bel) :
    0 ≤ bel.numeric_strength ∧ bel.numeric_strength ≤ 1 := by
  unfold perceiveWith at h
  split_ifs at h with h1
  · injection h with h
    rw [← h]
    constructor
    · apply le_min (by positivity) (by norm_num)
    · exact min_le_right _ _
  · rcases hin : input name with _ | v <;> rw [hin] at h
    · cases h
    · unfold belief_mapping at h
      split_ifs at h <;>
        first
          | (injection h with h; rw [← h];
             first
               | exact map_level_mem_Icc v
               | exact map_mood_mem_Icc v
               | exact map_deadline_mem_Icc v)
          | cases h

/-! ## C3 -/

/-- C3 counterexample: the input {time_available: -240} is accepted by
perception and stores time_available_norm with numeric strength -2,
outside [0,1]. -/
theorem C3_counterexample :
    perceive negTimeInput = .ok (perceiveWith negTimeInput (-240)) ∧
    (perceiveWith negTimeInput (-240) "time_available_norm").map
        Belief.numeric_strength = some (-2) ∧
    ¬ (0 : ℚ) ≤ -2 := by
  refine ⟨?_, ?_, by norm_num⟩
  · unfold perceive
    simp only [show negTimeInput "time_available" = some "-240" from rfl,
      show parseFloat "-240" = some (-240) from by decide]
  · unfold perceiveWith
    rw [if_pos rfl]
    show some (min ((-240 : ℚ) / 120) 1) = some (-2)
    norm_num [min_def]

/-- C3 amended: belief strengths after perception lie in [0,1] provided
the parsed time_available minutes are nonnegative (a negative numeric
time_available yields a time_available_norm strength below 0); membership
degrees lie in [0,1] unconditionally. -/
theorem C3_range_invariants :
    (∀ (input : String → Option String) (b : Beliefs),
        perceive input = .ok b →
        (∀ s q, input "time_available" = some s → parseFloat s = some q →
          0 ≤ q) →
        ∀ name bel, b name = some bel →
          0 ≤ bel.numeric_strength ∧ bel.numeric_strength ≤ 1) ∧
    (∀ (d : BeliefDict) (bn fs : String) (q : ℚ),
        getFuzzMem bn fs d = .ok q → 0 ≤ q ∧ q ≤ 1) := by
  constructor
  · intro input b hb hnn name bel h
    unfold perceive at hb
    rcases hti : input "time_available" with _ | s <;> simp only [hti] at hb
    · injection hb with hb
      subst hb
      exact perceiveWith_strength_bounds input 30 (by norm_num) name bel h
    · rcases hps : parseFloat s with _ | q <;> simp only [hps] at hb
      · cases hb
      · injection hb with hb
        subst hb
        exact perceiveWith_strength_bounds input q (hnn s q hti hps) name bel h
  · intro d bn fs q h
    exact getFuzzMem_ok_bounds bn fs d q h

/-- Witness for C3 at the empty input and a concrete membership query. -/
theorem C3_range_invariants_witness :
    (0 ≤ (Belief.mk "time_available_norm" (toString (30 : ℚ))
            (min ((30 : ℚ) / 120) 1)).numeric_strength ∧
      (Belief.mk "time_available_norm" (toString (30 : ℚ))
            (min ((30 : ℚ) / 120) 1)).numeric_strength ≤ 1) ∧
    (0 ≤ (1 : ℚ) ∧ (1 : ℚ) ≤ 1) :=
  ⟨C3_range_invariants.1 (fun _ => none) (perceiveWith (fun _ => none) 30)
      rfl (fun s q hs _ => nomatch hs) "time_available_norm" _ rfl,
    C3_range_invariants.2 (fun _ => none) "energy_level" "low" 1
      (by show Except.ok (interpMembership
            (fun i => trimf 0 0 5 (i : ℚ)) ((0 : ℚ) * 10)) = .ok 1
          norm_num [interpMembership, trimf])⟩

/-! ## C4 -/

/-- C4 counterexample: the planning rule's activation on a belief dict
with no beliefs at all equals its activation when the queried beliefs are
present with strength 0 — both are fully activated at 1 — so a missing
belief behaves exactly as strength 0 inside rule activations. -/
theorem C4_counterexample :
    planning_clarity.preconditions (fun _ => none) = .ok 1 ∧
    planning_clarity.preconditions zeroPlanningDict = .ok 1 := by
  constructor
  · show Except.ok (min
        (interpMembership (fun i => trimf 0 0 4 (i : ℚ)) ((0 : ℚ) * 10))
        (interpMembership (fun i => trimf 0 0 5 (i : ℚ)) ((0 : ℚ) * 10)))
      = .ok 1
    norm_num [interpMembership, trimf]
  · show Except.ok (min
        (interpMembership (fun i => trimf 0 0 4 (i : ℚ)) ((0 : ℚ) * 10))
        (interpMembership (fun i => trimf 0 0 5 (i : ℚ)) ((0 : ℚ) * 10)))
      = .ok 1
    norm_num [interpMembership, trimf]

/-- C4 amended: perception omits missing recognized keys from the belief
store (only time_available has a default), but the membership query
defaults a missing belief to strength 0.0, so rule activations treat a
missing belief exactly as if it were present with strength 0. -/
theorem C4_missing_is_zero_in_rules :
    (∀ (input : String → Option String) (b : Beliefs) (name : String),
        perceive input = .ok b → input name = none →
        name ≠ "time_available_norm" → b name = none) ∧
    (∀ (d : BeliefDict) (bn fs : String), d bn = none →
        getFuzzMem bn fs d =
          getFuzzMem bn fs (fun k => if k = bn then some 0 else d k)) := by
  constructor
  · intro input b name hb hin hname
    unfold perceive at hb
    rcases hti : input "time_available" with _ | s <;> simp only [hti] at hb
    · injection hb with hb
      subst hb
      unfold perceiveWith
      rw [if_neg hname, hin]
    · rcases hps : parseFloat s with _ | q <;> simp only [hps] at hb
      · cases hb
      · injection hb with hb
        subst hb
        unfold perceiveWith
        rw [if_neg hname, hin]
  · intro d bn fs hd
    unfold getFuzzMem
    rw [hd]
    simp

/-- Witness for C4: the energy_level key is absent from the empty input
and absent from the belief store, and the membership query on the empty
dict coincides with the dict holding energy_level at strength 0. -/
theorem C4_missing_is_zero_in_rules_witness :
    perceiveWith (fun _ => none) 30 "energy_level" = none ∧
    getFuzzMem "energy_level" "low" (fun _ => none) =
      getFuzzMem "energy_level" "low"
        (fun k => if k = "energy_level" then some 0 else (fun _ => none) k) :=
  ⟨C4_missing_is_zero_in_rules.1 (fun _ => none)
      (perceiveWith (fun _ => none) 30) "energy_level" rfl rfl (by decide),
    C4_missing_is_zero_in_rules.2 (fun _ => none) "energy_level" "low" rfl⟩

/-! ## C1 -/

/-- C1: for every belief mapping and every action, the computed total
utility equals the base utility plus the sum over the 9 rules of
activation × effect delta, a term being included only when the activation
exceeds 0.001 and the effect delta for that action is non-zero. -/
theorem C1_total_is_base_plus_thresholded_sum (d : BeliefDict) (a : Action) :
    (compute_utilities amdaRules d a).total_utility =
      base_utilities a +
        (amdaRules.map fun r =>
          if 0.001 < activation_strength r d ∧ r.effects a ≠ 0 then
            activation_strength r d * r.effects a
          else 0).sum := by
  rw [total_utility_eq_base_add_sum]
  simp only [ruleContribution_eq_if]

/-! ## C5 -/

/-- C5: a rule whose activation raises contributes nothing and the rest of
the cycle is identical to the run without that rule, for every action. -/
theorem C5_failing_rule_isolated (d : BeliefDict) (pre post : List Rule)
    (r : Rule) (msg : String) (h : r.preconditions d = .error msg)
    (a : Action) :
    compute_utilities (pre ++ r :: post) d a =
      compute_utilities (pre ++ post) d a := by
  unfold compute_utilities
  have hstep : ∀ acc : ℚ × List (String × ℚ), ruleStep a d acc r = acc := by
    intro acc; unfold ruleStep; rw [h]
  rw [List.foldl_append, List.foldl_append, List.foldl_cons, hstep]

/-- Witness for C5 at the concrete failing rule, the real rule set, the
empty belief dict and the STUDY action. -/
theorem C5_failing_rule_isolated_witness :
    compute_utilities ([] ++ failingRule :: amdaRules) (fun _ => none)
        Action.study =
      compute_utilities ([] ++ amdaRules) (fun _ => none) Action.study :=
  C5_failing_rule_isolated (fun _ => none) [] amdaRules failingRule "boom"
    rfl Action.study

/-! ## C7 -/

/-- C7: an input whose time_available does not parse as a number makes
perception fail with a parse error surfaced to the caller. -/
theorem C7_bad_time_surfaces_error (input : String → Option String)
    (s : String) (hs : input "time_available" = some s)
    (hp : parseFloat s = none) :
    perceive input = .error (.parseFailure s) := by
  unfold perceive
  simp only [hs, hp]

/-- Witness for C7 at the concrete input {time_available: abc}. -/
theorem C7_bad_time_surfaces_error_witness :
    parseFloat "abc" = none ∧
      perceive badTimeInput = .error (.parseFailure "abc") :=
  ⟨by decide, C7_bad_time_surfaces_error badTimeInput "abc" rfl (by decide)⟩

/-! ## C9 -/

/-- C9: when time_available is absent, perception stores the derived
belief time_available_norm with numeric strength exactly 0.25. -/
theorem C9_default_time_norm (input : String → Option String) (b : Beliefs)
    (ht : input "time_available" = none) (hb : perceive input = .ok b) :
    (b "time_available_norm").map Belief.numeric_strength = some (1 / 4) := by
  unfold perceive at hb
  rw [ht] at hb
  injection hb with hb
  subst hb
  unfold perceiveWith
  rw [if_pos rfl]
  show some (min ((30 : ℚ) / 120) 1) = some (1 / 4)
  norm_num [min_def]

/-- Witness for C9 at the empty input. -/
theorem C9_default_time_norm_witness :
    ((perceiveWith (fun _ => none) 30) "time_available_norm").map
        Belief.numeric_strength = some (1 / 4) :=
  C9_default_time_norm (fun _ => none) _ rfl rfl

/-! ## Lemmas about the stable descending sort and the resolver -/

theorem sortDesc_perm (l : List UtilityScore) : List.Perm (sortDesc l) l :=
  List.perm_insertionSort _ l

theorem sortDesc_sorted (l : List UtilityScore) :
    (sortDesc l).Pairwise fun s t => t.total_utility ≤ s.total_utility :=
  List.sorted_insertionSort _ l

theorem sortDesc_ne_nil {l : List UtilityScore} (hl : l ≠ []) :
    sortDesc l ≠ [] := by
  intro h
  apply hl
  have := (sortDesc_perm l).length_eq
  rw [h] at this
  exact List.length_eq_zero.mp this.symm

theorem headD_sortDesc_mem (l : List UtilityScore) (hl : l ≠ [])
    (d : UtilityScore) : (sortDesc l).headD d ∈ l := by
  rcases hs : sortDesc l with _ | ⟨x, xs⟩
  · exact absurd hs (sortDesc_ne_nil hl)
  · have : x ∈ sortDesc l := by rw [hs]; exact List.mem_cons_self x xs
    simpa using (sortDesc_perm l).subset this

theorem headD_sortDesc_ge (l : List UtilityScore) (d x : UtilityScore)
    (hx : x ∈ l) :
    x.total_utility ≤ ((sortDesc l).headD d).total_utility := by
  have hx2 : x ∈ sortDesc l := (sortDesc_perm l).mem_iff.mpr hx
  have hsort := sortDesc_sorted l
  generalize hgen : sortDesc l = sl at hx2 hsort ⊢
  cases sl with
  | nil => cases hx2
  | cons y ys =>
    rw [List.headD_cons]
    rcases List.mem_cons.mp hx2 with rfl | hx3
    · exact le_refl _
    · exact (List.pairwise_cons.mp hsort).1 x hx3

theorem mem_scoresList (scores : Action → UtilityScore) (a : Action) :
    scores a ∈ scoresList scores := by
  apply List.mem_map_of_mem scores
  cases a <;> simp [actionList]

theorem scoresList_ne_nil (scores : Action → UtilityScore) :
    scoresList scores ≠ [] := by
  unfold scoresList actionList
  simp

theorem le_bestScore (scores : Action → UtilityScore) (a : Action) :
    (scores a).total_utility ≤ (bestScore scores).total_utility :=
  headD_sortDesc_ge _ _ _ (mem_scoresList scores a)

theorem bestScore_mem (scores : Action → UtilityScore) :
    bestScore scores ∈ scoresList scores :=
  headD_sortDesc_mem _ (scoresList_ne_nil scores) _

theorem mem_contenders_bound {scores : Action → UtilityScore}
    {s : UtilityScore} (hs : s ∈ contendersOf scores) :
    |s.total_utility - (bestScore scores).total_utility| ≤ epsilon :=
  of_decide_eq_true (List.mem_filter.mp hs).2

theorem mem_of_mem_contenders {scores : Action → UtilityScore}
    {s : UtilityScore} (hs : s ∈ contendersOf scores) :
    s ∈ scoresList scores :=
  (sortDesc_perm _).subset (List.mem_filter.mp hs).1

set_option maxHeartbeats 1000000 in
/-- Every branch of the resolver returns either the top score or a member
of the contender list. -/
theorem resolve_decision_cases (scores : Action → UtilityScore)
    (la : Option Action) :
    (resolve_decision scores la).2 = bestScore scores ∨
      (resolve_decision scores la).2 ∈ contendersOf scores := by
  unfold resolve_decision
  by_cases h1 : 1 < (contendersOf scores).length
  · rw [if_pos h1]
    by_cases h2 : health_contenders scores ≠ []
    · rw [if_pos h2]
      refine Or.inr ?_
      show (sortDesc (health_contenders scores)).headD dummyScore ∈
        contendersOf scores
      exact (List.mem_filter.mp (headD_sortDesc_mem _ h2 dummyScore)).1
    · rw [if_neg h2]
      by_cases h3 : deadline_contenders scores ≠ []
      · rw [if_pos h3]
        refine Or.inr ?_
        show (sortDesc (deadline_contenders scores)).headD dummyScore ∈
          contendersOf scores
        exact (List.mem_filter.mp (headD_sortDesc_mem _ h3 dummyScore)).1
      · rw [if_neg h3]
        rcases la with _ | la
        · left; rfl
        · dsimp only
          by_cases h4 :
            (contendersOf scores).filter (fun s => decide (s.action ≠ la)) ≠ []
          · rw [if_pos h4]
            refine Or.inr ?_
            show (sortDesc ((contendersOf scores).filter
                (fun s => decide (s.action ≠ la)))).headD dummyScore ∈
              contendersOf scores
            exact (List.mem_filter.mp (headD_sortDesc_mem _ h4 dummyScore)).1
          · rw [if_neg h4]
            left; rfl
  · rw [if_neg h1]
    left; rfl

/-! ## Evaluation of memberships at universe points -/

theorem interpMembership_at_nat (mf : ℕ → ℚ) (k : ℕ) (hk : k ≤ 10) :
    interpMembership mf (k : ℚ) = mf k := by
  unfold interpMembership
  have h0 : ¬((k : ℚ) < 0 ∨ 10 < (k : ℚ)) := by
    push_neg
    constructor
    · positivity
    · exact_mod_cast hk
  rw [if_neg h0]
  by_cases h10 : (k : ℚ) = 10
  · rw [if_pos h10]
    have hk10 : k = 10 := by exact_mod_cast h10
    rw [hk10]
  · rw [if_neg h10]
    rw [Int.floor_natCast k]
    simp

theorem memAt_eval (sets : String → Option (ℚ → ℚ)) (label : String)
    (mf : ℚ → ℚ) (h : sets label = some mf) (x : ℚ) (k : ℕ)
    (hx : x = (k : ℚ)) (hk : k ≤ 10) (v : ℚ) (hv : mf (k : ℚ) = v) :
    memAt sets label x = some v := by
  unfold memAt
  rw [h, hx]
  simp only [Option.map_some']
  rw [interpMembership_at_nat (fun i => mf (i : ℚ)) k hk]
  rw [hv]

/-! ## C6 -/

/-- C6 counterexample: for the degenerate level set low with corners
(0,0,5) where a = b = 0, the membership degree at the corner a is 1.0,
not 0.0 as the claim states. -/
theorem C6_counterexample :
    memAt levelSets "low" 0 = some 1 ∧ (1 : ℚ) ≠ 0 :=
  ⟨memAt_eval levelSets "low" _ rfl 0 0 (by norm_num) (by norm_num) 1
      (by norm_num [trimf]),
    by norm_num⟩

/-- C6 amended: for every membership function with corners (a,b,c) in the
fixed tables, the degree at b is exactly 1.0; the degree at a is exactly
0.0 when a < b and the degree at c is exactly 0.0 when b < c; for the
degenerate sets (a = b or b = c) the degree at the repeated corner is the
peak value 1.0 rather than 0.0. -/
theorem C6_corner_exactness :
    (memAt levelSets "low" 0 = some 1 ∧ memAt levelSets "low" 5 = some 0) ∧
    (memAt levelSets "medium" 0 = some 0 ∧ memAt levelSets "medium" 5 = some 1 ∧
      memAt levelSets "medium" 10 = some 0) ∧
    (memAt levelSets "high" 5 = some 0 ∧ memAt levelSets "high" 10 = some 1) ∧
    (memAt timeSets "short" 0 = some 1 ∧ memAt timeSets "short" 3 = some 0) ∧
    (memAt timeSets "medium" 2 = some 0 ∧ memAt timeSets "medium" 5 = some 1 ∧
      memAt timeSets "medium" 8 = some 0) ∧
    (memAt timeSets "long" 7 = some 0 ∧ memAt timeSets "long" 10 = some 1) ∧
    (memAt deadlineSets "none" 0 = some 1 ∧
      memAt deadlineSets "none" 4 = some 0) ∧
    (memAt deadlineSets "near" 2 = some 0 ∧
      memAt deadlineSets "near" 5 = some 1 ∧
      memAt deadlineSets "near" 8 = some 0) ∧
    (memAt deadlineSets "urgent" 6 = some 0 ∧
      memAt deadlineSets "urgent" 10 = some 1) ∧
    (memAt moodSets "bad" 0 = some 1 ∧ memAt moodSets "bad" 5 = some 0) ∧
    (memAt moodSets "okay" 0 = some 0 ∧ memAt moodSets "okay" 5 = some 1 ∧
      memAt moodSets "okay" 10 = some 0) ∧
    (memAt moodSets "good" 5 = some 0 ∧ memAt moodSets "good" 10 = some 1) :=
  ⟨⟨memAt_eval _ _ _ rfl 0 0 (by norm_num) (by norm_num) 1 (by norm_num [trimf]),
    memAt_eval _ _ _ rfl 5 5 (by norm_num) (by norm_num) 0 (by norm_num [trimf])⟩,
   ⟨memAt_eval _ _ _ rfl 0 0 (by norm_num) (by norm_num) 0 (by norm_num [trimf]),
    memAt_eval _ _ _ rfl 5 5 (by norm_num) (by norm_num) 1 (by norm_num [trimf]),
    memAt_eval _ _ _ rfl 10 10 (by norm_num) (by norm_num) 0 (by norm_num [trimf])⟩,
   ⟨memAt_eval _ _ _ rfl 5 5 (by norm_num) (by norm_num) 0 (by norm_num [trimf]),
    memAt_eval _ _ _ rfl 10 10 (by norm_num) (by norm_num) 1 (by norm_num [trimf])⟩,
   ⟨memAt_eval _ _ _ rfl 0 0 (by norm_num) (by norm_num) 1 (by norm_num [trimf]),
    memAt_eval _ _ _ rfl 3 3 (by norm_num) (by norm_num) 0 (by norm_num [trimf])⟩,
   ⟨memAt_eval _ _ _ rfl 2 2 (by norm_num) (by norm_num) 0 (by norm_num [trimf]),
    memAt_eval _ _ _ rfl 5 5 (by norm_num) (by norm_num) 1 (by norm_num [trimf]),
    memAt_eval _ _ _ rfl 8 8 (by norm_num) (by norm_num) 0 (by norm_num [trimf])⟩,
   ⟨memAt_eval _ _ _ rfl 7 7 (by norm_num) (by norm_num) 0 (by norm_num [trimf]),
    memAt_eval _ _ _ rfl 10 10 (by norm_num) (by norm_num) 1 (by norm_num [trimf])⟩,
   ⟨memAt_eval _ _ _ rfl 0 0 (by norm_num) (by norm_num) 1 (by norm_num [trimf]),
    memAt_eval _ _ _ rfl 4 4 (by norm_num) (by norm_num) 0 (by norm_num [trimf])⟩,
   ⟨memAt_eval _ _ _ rfl 2 2 (by norm_num) (by norm_num) 0 (by norm_num [trimf]),
    memAt_eval _ _ _ rfl 5 5 (by norm_num) (by norm_num) 1 (by norm_num [trimf]),
    memAt_eval _ _ _ rfl 8 8 (by norm_num) (by norm_num) 0 (by norm_num [trimf])⟩,
   ⟨memAt_eval _ _ _ rfl 6 6 (by norm_num) (by norm_num) 0 (by norm_num [trimf]),
    memAt_eval _ _ _ rfl 10 10 (by norm_num) (by norm_num) 1 (by norm_num [trimf])⟩,
   ⟨memAt_eval _ _ _ rfl 0 0 (by norm_num) (by norm_num) 1 (by norm_num [trimf]),
    memAt_eval _ _ _ rfl 5 5 (by norm_num) (by norm_num) 0 (by norm_num [trimf])⟩,
   ⟨memAt_eval _ _ _ rfl 0 0 (by norm_num) (by norm_num) 0 (by norm_num [trimf]),
    memAt_eval _ _ _ rfl 5 5 (by norm_num) (by norm_num) 1 (by norm_num [trimf]),
    memAt_eval _ _ _ rfl 10 10 (by norm_num) (by norm_num) 0 (by norm_num [trimf])⟩,
   ⟨memAt_eval _ _ _ rfl 5 5 (by norm_num) (by norm_num) 0 (by norm_num [trimf]),
    memAt_eval _ _ _ rfl 10 10 (by norm_num) (by norm_num) 1 (by norm_num [trimf])⟩⟩

/-! ## C2 -/

theorem one_lt_length_of_mem_ne {α : Type} {x y : α} {l : List α}
    (hx : x ∈ l) (hy : y ∈ l) (hxy : x ≠ y) : 1 < l.length := by
  match l with
  | [] => cases hx
  | [a] =>
    rw [List.mem_singleton] at hx hy
    exact absurd (hx.trans hy.symm) hxy
  | a :: b :: t =>
    simp only [List.length_cons]
    omega

theorem scoresList_nodup (scores : Action → UtilityScore)
    (hact : ∀ a, (scores a).action = a) : (scoresList scores).Nodup := by
  unfold scoresList
  apply List.Nodup.map_on
  · intro x _ y _ hxy
    have h := congrArg UtilityScore.action hxy
    rw [hact, hact] at h
    exact h
  · decide

theorem cons_sublist_cases {α : Type} {a b : α} {l t : List α}
    (h : (a :: l).Sublist (b :: t)) :
    (a :: l).Sublist t ∨ (a = b ∧ l.Sublist t) := by
  cases h with
  | cons _ h' => exact Or.inl h'
  | cons₂ _ h' => exact Or.inr ⟨rfl, h'⟩

/-- C2 counterexample: with all eight total utilities equal (so DEEP_REST
and STUDY tie at the maximum), the resolver returns SHORT_BREAK, because
the stable sort keeps SHORT_BREAK, which precedes DEEP_REST in enum order,
first among the tied health contenders. -/
theorem C2_counterexample :
    (eqScores Action.deepRest).total_utility =
      (eqScores Action.study).total_utility ∧
    ((scoresList eqScores).all fun s =>
      decide (s.total_utility ≤ (eqScores Action.deepRest).total_utility))
        = true ∧
    (resolve_decision eqScores none).1 = Action.shortBreak ∧
    Action.shortBreak ≠ Action.deepRest := by
  refine ⟨rfl, rfl, ?_, by decide⟩
  have hsorted : sorted_scores eqScores = scoresList eqScores := rfl
  have hcont : contendersOf eqScores = scoresList eqScores := by
    unfold contendersOf
    rw [hsorted, List.filter_eq_self]
    intro s hs
    obtain ⟨act, -, rfl⟩ := List.mem_map.mp hs
    apply decide_eq_true
    rw [show (eqScores act).total_utility = 0 from rfl,
      show (bestScore eqScores).total_utility = 0 from rfl]
    norm_num [epsilon]
  have hhealth : health_contenders eqScores =
      [eqScores Action.shortBreak, eqScores Action.deepRest,
        eqScores Action.relaxActivity] := by
    unfold health_contenders
    rw [hcont]
    rfl
  unfold resolve_decision
  rw [hcont, hhealth]
  rfl

set_option maxHeartbeats 1000000 in
/-- C2 amended: whenever DEEP_REST and STUDY tie at the maximum total
utility and SHORT_BREAK is strictly below the maximum, the resolver
returns DEEP_REST; when SHORT_BREAK also ties the maximum, the stable sort
returns SHORT_BREAK instead, since it precedes DEEP_REST in enum order. -/
theorem C2_health_tiebreak (scores : Action → UtilityScore)
    (la : Option Action)
    (hact : ∀ a, (scores a).action = a)
    (htie : (scores Action.deepRest).total_utility =
      (scores Action.study).total_utility)
    (hmax : ∀ a, (scores a).total_utility ≤
      (scores Action.deepRest).total_utility)
    (hsb : (scores Action.shortBreak).total_utility <
      (scores Action.deepRest).total_utility) :
    (resolve_decision scores la).1 = Action.deepRest := by
  have hbest_le : (bestScore scores).total_utility ≤
      (scores Action.deepRest).total_utility := by
    obtain ⟨a, -, ha⟩ := List.mem_map.mp (bestScore_mem scores)
    rw [← ha]
    exact hmax a
  have hbtot : (bestScore scores).total_utility =
      (scores Action.deepRest).total_utility :=
    le_antisymm hbest_le (le_bestScore scores Action.deepRest)
  have hmem_sorted : ∀ a : Action, scores a ∈ sorted_scores scores := fun a =>
    (sortDesc_perm _).mem_iff.mpr (mem_scoresList scores a)
  have hdp_eps : |(scores Action.deepRest).total_utility -
      (bestScore scores).total_utility| ≤ epsilon := by
    rw [hbtot]
    simp [epsilon]
    norm_num
  have hdeep_cont : scores Action.deepRest ∈ contendersOf scores :=
    List.mem_filter.mpr ⟨hmem_sorted _, decide_eq_true hdp_eps⟩
  have hstudy_cont : scores Action.study ∈ contendersOf scores := by
    refine List.mem_filter.mpr ⟨hmem_sorted _, decide_eq_true ?_⟩
    rw [hbtot, htie]
    simp [epsilon]
    norm_num
  have hne : scores Action.deepRest ≠ scores Action.study := by
    intro h
    have h2 := congrArg UtilityScore.action h
    rw [hact, hact] at h2
    exact Action.noConfusion h2
  have hlen : 1 < (contendersOf scores).length :=
    one_lt_length_of_mem_ne hdeep_cont hstudy_cont hne
  have hdeep_health : scores Action.deepRest ∈ health_contenders scores := by
    refine List.mem_filter.mpr ⟨hdeep_cont, decide_eq_true ?_⟩
    rw [hact]
    decide
  have hh : health_contenders scores ≠ [] := List.ne_nil_of_mem hdeep_health
  unfold resolve_decision
  rw [if_pos hlen, if_pos hh]
  show ((sortDesc (health_contenders scores)).headD dummyScore).action =
    Action.deepRest
  have hr_mem : (sortDesc (health_contenders scores)).headD dummyScore ∈
      health_contenders scores :=
    headD_sortDesc_mem _ hh dummyScore
  obtain ⟨hr_cont, hr_hp⟩ := List.mem_filter.mp hr_mem
  have hr_hp2 : ((sortDesc (health_contenders scores)).headD
      dummyScore).action ∈ health_priority := of_decide_eq_true hr_hp
  obtain ⟨ar, -, har⟩ := List.mem_map.mp (mem_of_mem_contenders hr_cont)
  have hr_act : ((sortDesc (health_contenders scores)).headD
      dummyScore).action = ar := by
    rw [← har, hact]
  have hr_ge : (scores Action.deepRest).total_utility ≤
      ((sortDesc (health_contenders scores)).headD
        dummyScore).total_utility :=
    headD_sortDesc_ge _ _ _ hdeep_health
  rw [hr_act] at hr_hp2 ⊢
  simp only [health_priority, List.mem_cons, List.not_mem_nil, or_false]
    at hr_hp2
  rcases hr_hp2 with rfl | rfl | rfl
  · rfl
  · exfalso
    rw [← har] at hr_ge
    exact absurd (lt_of_le_of_lt hr_ge hsb) (lt_irrefl _)
  · exfalso
    have hrx_ge : (scores Action.deepRest).total_utility ≤
        (scores Action.relaxActivity).total_utility := by
      rw [har]
      exact hr_ge
    have hrx_total : (scores Action.relaxActivity).total_utility =
        (scores Action.deepRest).total_utility :=
      le_antisymm (hmax Action.relaxActivity) hrx_ge
    have hrx_eps : |(scores Action.relaxActivity).total_utility -
        (bestScore scores).total_utility| ≤ epsilon := by
      rw [hbtot, hrx_total]
      simp [epsilon]
      norm_num
    have hpair0 : [scores Action.deepRest,
        scores Action.relaxActivity].Sublist (scoresList scores) := by
      unfold scoresList actionList
      simp only [List.map_cons, List.map_nil]
      apply List.Sublist.cons
      apply List.Sublist.cons
      apply List.Sublist.cons
      apply List.Sublist.cons
      apply List.Sublist.cons₂
      apply List.Sublist.cons₂
      apply List.nil_sublist
    have hpair1 : [scores Action.deepRest,
        scores Action.relaxActivity].Sublist (sorted_scores scores) :=
      List.pair_sublist_insertionSort (hmax Action.relaxActivity) hpair0
    have hpair2 : [scores Action.deepRest,
        scores Action.relaxActivity].Sublist (contendersOf scores) := by
      have hflt := List.Sublist.filter (fun s : UtilityScore =>
        decide (|s.total_utility - (bestScore scores).total_utility| ≤
          epsilon)) hpair1
      rwa [List.filter_cons, List.filter_cons, List.filter_nil,
        if_pos (decide_eq_true hdp_eps), if_pos (decide_eq_true hrx_eps)]
        at hflt
    have hpair3 : [scores Action.deepRest,
        scores Action.relaxActivity].Sublist (health_contenders scores) := by
      have hflt := List.Sublist.filter (fun s : UtilityScore =>
        decide (s.action ∈ health_priority)) hpair2
      have hd : decide ((scores Action.deepRest).action ∈ health_priority)
          = true := by rw [hact]; decide
      have hr : decide ((scores Action.relaxActivity).action ∈
          health_priority) = true := by rw [hact]; decide
      rwa [List.filter_cons, List.filter_cons, List.filter_nil,
        if_pos hd, if_pos hr] at hflt
    have hpair4 : [scores Action.deepRest,
        scores Action.relaxActivity].Sublist
        (sortDesc (health_contenders scores)) :=
      List.pair_sublist_insertionSort (hmax Action.relaxActivity) hpair3
    have hnodup : (sortDesc (health_contenders scores)).Nodup := by
      have h1 : (scoresList scores).Nodup := scoresList_nodup scores hact
      have h2 : (sorted_scores scores).Nodup :=
        ((sortDesc_perm _).nodup_iff).mpr h1
      have h3 : (contendersOf scores).Nodup := h2.filter _
      have h4 : (health_contenders scores).Nodup := h3.filter _
      exact ((sortDesc_perm _).nodup_iff).mpr h4
    have hne_dr : scores Action.deepRest ≠ scores Action.relaxActivity := by
      intro h
      have h2 := congrArg UtilityScore.action h
      rw [hact, hact] at h2
      exact Action.noConfusion h2
    generalize hgen : sortDesc (health_contenders scores) = sl
      at hpair4 hnodup har
    cases sl with
    | nil => cases hpair4
    | cons y ys =>
      rw [List.headD_cons] at har
      rcases cons_sublist_cases hpair4 with hsub | ⟨heq, -⟩
      · have hy : scores Action.relaxActivity ∈ ys :=
          hsub.subset (by simp)
        rw [← har] at hnodup
        exact (List.nodup_cons.mp hnodup).1 hy
      · rw [← har] at heq
        exact hne_dr heq

/-- Witness for C2 at a concrete score set: DEEP_REST and STUDY at 1,
everything else at 0. -/
theorem C2_health_tiebreak_witness :
    (resolve_decision tieScores none).1 = Action.deepRest :=
  C2_health_tiebreak tieScores none (fun a => rfl) rfl
    (by intro a; cases a <;> simp [tieScores] <;> norm_num)
    (by simp [tieScores])

/-! ## C10 -/

/-- C10: for every utility-score set and lastAction, the score returned by
the resolver is within epsilon = 0.1 of every score, in particular of the
maximum total utility: no tie-break tier selects an action more than
epsilon worse than the best. -/
theorem C10_resolver_within_epsilon (scores : Action → UtilityScore)
    (la : Option Action) (a : Action) :
    (scores a).total_utility -
        (resolve_decision scores la).2.total_utility ≤ epsilon := by
  have hbest : (scores a).total_utility ≤ (bestScore scores).total_utility :=
    le_bestScore scores a
  have heps : (0 : ℚ) ≤ epsilon := by norm_num [epsilon]
  rcases resolve_decision_cases scores la with h | h
  · rw [h]; linarith
  · have hb := mem_contenders_bound h
    have := abs_le.mp hb
    linarith [this.1]

/-! ## C8 -/

theorem getFuzzMem_congr (bn fs : String) (d₁ d₂ : BeliefDict)
    (h : d₁ bn = d₂ bn) : getFuzzMem bn fs d₁ = getFuzzMem bn fs d₂ := by
  unfold getFuzzMem
  rw [h]

theorem ruleContribution_congr (r : Rule) (a : Action) (d₁ d₂ : BeliefDict)
    (h : r.preconditions d₁ = r.preconditions d₂) :
    ruleContribution r a d₁ = ruleContribution r a d₂ := by
  unfold ruleContribution
  rw [h]

theorem deadline_near_at_zero :
    getFuzzMem "deadline_status" "near" (fun _ => some 0) = .ok 0 := by
  show Except.ok (interpMembership (fun i => trimf 2 5 8 (i : ℚ))
    ((0 : ℚ) * 10)) = .ok 0
  norm_num [interpMembership, trimf]

theorem deadline_urgent_at_zero :
    getFuzzMem "deadline_status" "urgent" (fun _ => some 0) = .ok 0 := by
  show Except.ok (interpMembership (fun i => trimf 6 10 10 (i : ℚ))
    ((0 : ℚ) * 10)) = .ok 0
  norm_num [interpMembership, trimf]

theorem deadline_near_at_one :
    getFuzzMem "deadline_status" "near" (fun _ => some 1) = .ok 0 := by
  show Except.ok (interpMembership (fun i => trimf 2 5 8 (i : ℚ))
    ((1 : ℚ) * 10)) = .ok 0
  norm_num [interpMembership, trimf]

theorem deadline_urgent_at_one :
    getFuzzMem "deadline_status" "urgent" (fun _ => some 1) = .ok 1 := by
  show Except.ok (interpMembership (fun i => trimf 6 10 10 (i : ℚ))
    ((1 : ℚ) * 10)) = .ok 1
  norm_num [interpMembership, trimf]

set_option maxHeartbeats 1000000 in
/-- C8: raising deadline_status from none to urgent with every other input
unchanged never decreases STUDY's total utility (it adds exactly the fully
activated deadline_urgency bonus of 0.8). -/
theorem C8_deadline_monotone (i₁ i₂ : String → Option String)
    (h₁ : i₁ "deadline_status" = some "none")
    (h₂ : i₂ "deadline_status" = some "urgent")
    (hagree : ∀ n, n ≠ "deadline_status" → i₁ n = i₂ n)
    (b₁ b₂ : Beliefs)
    (hb₁ : perceive i₁ = .ok b₁) (hb₂ : perceive i₂ = .ok b₂) :
    (compute_utilities amdaRules (beliefDict b₁) Action.study).total_utility ≤
      (compute_utilities amdaRules (beliefDict b₂)
        Action.study).total_utility := by
  have hta : i₁ "time_available" = i₂ "time_available" :=
    hagree _ (by decide)
  obtain ⟨tv, hbw₁, hbw₂⟩ :
      ∃ tv, b₁ = perceiveWith i₁ tv ∧ b₂ = perceiveWith i₂ tv := by
    unfold perceive at hb₁ hb₂
    rcases hti : i₁ "time_available" with _ | s
    · have hti₂ : i₂ "time_available" = none := hta.symm.trans hti
      simp only [hti] at hb₁
      simp only [hti₂] at hb₂
      injection hb₁ with hb₁
      injection hb₂ with hb₂
      exact ⟨30, hb₁.symm, hb₂.symm⟩
    · have hti₂ : i₂ "time_available" = some s := hta.symm.trans hti
      simp only [hti] at hb₁
      simp only [hti₂] at hb₂
      rcases hps : parseFloat s with _ | q
      · simp only [hps] at hb₁
        cases hb₁
      · simp only [hps] at hb₁ hb₂
        injection hb₁ with hb₁
        injection hb₂ with hb₂
        exact ⟨q, hb₁.symm, hb₂.symm⟩
  subst hbw₁
  subst hbw₂
  have hdn : ∀ n, n ≠ "deadline_status" →
      beliefDict (perceiveWith i₁ tv) n =
        beliefDict (perceiveWith i₂ tv) n := by
    intro n hn
    unfold beliefDict perceiveWith
    by_cases htan : n = "time_available_norm"
    · rw [if_pos htan, if_pos htan]
    · rw [if_neg htan, if_neg htan, hagree n hn]
  have hd₁ : beliefDict (perceiveWith i₁ tv) "deadline_status" =
      (fun _ => some (0 : ℚ)) "deadline_status" := by
    show ((perceiveWith i₁ tv) "deadline_status").map Belief.numeric_strength
      = some 0
    unfold perceiveWith
    rw [if_neg (by decide), h₁]
    show some (map_deadline "none") = some 0
    rfl
  have hd₂ : beliefDict (perceiveWith i₂ tv) "deadline_status" =
      (fun _ => some (1 : ℚ)) "deadline_status" := by
    show ((perceiveWith i₂ tv) "deadline_status").map Belief.numeric_strength
      = some 1
    unfold perceiveWith
    rw [if_neg (by decide), h₂]
    show some (map_deadline "urgent") = some 1
    rfl
  have efat : ∀ fs, getFuzzMem "physical_fatigue" fs
      (beliefDict (perceiveWith i₁ tv)) =
      getFuzzMem "physical_fatigue" fs (beliefDict (perceiveWith i₂ tv)) :=
    fun fs => getFuzzMem_congr _ _ _ _ (hdn _ (by decide))
  have eeng : ∀ fs, getFuzzMem "energy_level" fs
      (beliefDict (perceiveWith i₁ tv)) =
      getFuzzMem "energy_level" fs (beliefDict (perceiveWith i₂ tv)) :=
    fun fs => getFuzzMem_congr _ _ _ _ (hdn _ (by decide))
  have etime : ∀ fs, getFuzzMem "time_available_norm" fs
      (beliefDict (perceiveWith i₁ tv)) =
      getFuzzMem "time_available_norm" fs
        (beliefDict (perceiveWith i₂ tv)) :=
    fun fs => getFuzzMem_congr _ _ _ _ (hdn _ (by decide))
  have efoc : ∀ fs, getFuzzMem "mental_focus" fs
      (beliefDict (perceiveWith i₁ tv)) =
      getFuzzMem "mental_focus" fs (beliefDict (perceiveWith i₂ tv)) :=
    fun fs => getFuzzMem_congr _ _ _ _ (hdn _ (by decide))
  have estr : ∀ fs, getFuzzMem "stress_level" fs
      (beliefDict (perceiveWith i₁ tv)) =
      getFuzzMem "stress_level" fs (beliefDict (perceiveWith i₂ tv)) :=
    fun fs => getFuzzMem_congr _ _ _ _ (hdn _ (by decide))
  have emood : ∀ fs, getFuzzMem "mood" fs
      (beliefDict (perceiveWith i₁ tv)) =
      getFuzzMem "mood" fs (beliefDict (perceiveWith i₂ tv)) :=
    fun fs => getFuzzMem_congr _ _ _ _ (hdn _ (by decide))
  have h1n : deadline_urgency.preconditions
      (beliefDict (perceiveWith i₁ tv)) = .ok 0 := by
    simp only [deadline_urgency]
    rw [getFuzzMem_congr "deadline_status" "near" _ (fun _ => some 0) hd₁,
      getFuzzMem_congr "deadline_status" "urgent" _ (fun _ => some 0) hd₁,
      deadline_near_at_zero, deadline_urgent_at_zero]
    show Except.ok (max (0 : ℚ) 0) = Except.ok 0
    norm_num
  have h1u : deadline_urgency.preconditions
      (beliefDict (perceiveWith i₂ tv)) = .ok 1 := by
    simp only [deadline_urgency]
    rw [getFuzzMem_congr "deadline_status" "near" _ (fun _ => some 1) hd₂,
      getFuzzMem_congr "deadline_status" "urgent" _ (fun _ => some 1) hd₂,
      deadline_near_at_one, deadline_urgent_at_one]
    show Except.ok (max (0 : ℚ) 1) = Except.ok 1
    norm_num
  have hc1n : ruleContribution deadline_urgency Action.study
      (beliefDict (perceiveWith i₁ tv)) = 0 := by
    unfold ruleContribution
    simp only [h1n]
    rw [if_neg (by norm_num)]
  have hc1u : ruleContribution deadline_urgency Action.study
      (beliefDict (perceiveWith i₂ tv)) = 0.8 := by
    unfold ruleContribution
    simp only [h1u]
    rw [if_pos (by norm_num : (1 : ℚ) > 0.001)]
    rw [show deadline_urgency.effects Action.study = 0.8 from rfl]
    rw [if_pos (by norm_num : (0.8 : ℚ) * 1 ≠ 0)]
    norm_num
  have e3 : low_energy_short_time.preconditions
      (beliefDict (perceiveWith i₁ tv)) =
      low_energy_short_time.preconditions
        (beliefDict (perceiveWith i₂ tv)) := by
    simp only [low_energy_short_time]
    rw [eeng "low", etime "short"]
  have e4 : high_focus_time.preconditions
      (beliefDict (perceiveWith i₁ tv)) =
      high_focus_time.preconditions (beliefDict (perceiveWith i₂ tv)) := by
    simp only [high_focus_time]
    rw [efoc "high", etime "medium", etime "long"]
  have e6 : exercise_readiness.preconditions
      (beliefDict (perceiveWith i₁ tv)) =
      exercise_readiness.preconditions
        (beliefDict (perceiveWith i₂ tv)) := by
    simp only [exercise_readiness]
    rw [eeng "high", efat "low", etime "long"]
  have hcr2 := ruleContribution_congr high_fatigue Action.study _ _
    (efat "high")
  have hcr3 := ruleContribution_congr low_energy_short_time Action.study _ _
    e3
  have hcr4 := ruleContribution_congr high_focus_time Action.study _ _ e4
  have hcr5 := ruleContribution_congr stress_mitigation Action.study _ _
    (estr "high")
  have hcr6 := ruleContribution_congr exercise_readiness Action.study _ _ e6
  have hcr7 := ruleContribution_congr good_mood_relax Action.study _ _
    (emood "good")
  have hcr8 := ruleContribution_congr bad_mood_care Action.study _ _
    (emood "bad")
  have hc9a : ruleContribution planning_clarity Action.study
      (beliefDict (perceiveWith i₁ tv)) = 0 :=
    ruleContribution_eff_zero _ _ _ rfl
  have hc9b : ruleContribution planning_clarity Action.study
      (beliefDict (perceiveWith i₂ tv)) = 0 :=
    ruleContribution_eff_zero _ _ _ rfl
  rw [total_utility_eq_base_add_sum, total_utility_eq_base_add_sum]
  simp only [amdaRules, List.map_cons, List.map_nil, List.sum_cons,
    List.sum_nil]
  rw [hc1n, hc1u, hcr2, hcr3, hcr4, hcr5, hcr6, hcr7, hcr8, hc9a, hc9b]
  have h08 : (0 : ℚ) ≤ 0.8 := by norm_num
  linarith

/-- Witness for C8 at the concrete inputs differing only in
deadline_status. -/
theorem C8_deadline_monotone_witness :
    (compute_utilities amdaRules
        (beliefDict (perceiveWith deadlineNoneInput 30))
        Action.study).total_utility ≤
      (compute_utilities amdaRules
        (beliefDict (perceiveWith deadlineUrgentInput 30))
        Action.study).total_utility :=
  C8_deadline_monotone deadlineNoneInput deadlineUrgentInput rfl rfl
    (fun n hn => by
      unfold deadlineNoneInput deadlineUrgentInput
      rw [if_neg hn, if_neg hn])
    _ _ rfl rfl

end AMDA
